import Mathlib

/-!
Shallow embedding of the deposition-detection core:
the temporal signal analyzer (`src/analysis/hsv_analyzer.py`) and the
region-of-interest tracker (`src/camera/processor.py`).

Floating-point values are modelled as rationals (ℚ).  Frames are modelled
as lists of HSV pixels; a mask is a list of natural numbers aligned with
the pixel list (a pixel is selected when its mask entry is positive),
mirroring the `mask > 0` test in `ImageProcessor.get_hsv_stats`.
`np.sqrt`/`np.exp` are passed in as function parameters where they occur,
since the claims under study do not depend on their values.
-/

namespace DepositionDetection

/-- The dict returned by `ImageProcessor.get_hsv_stats`:
`{'h_m': …, 's_m': …, 'v_m': …}`. -/
structure ColorStats where
  h_m : ℚ
  s_m : ℚ
  v_m : ℚ
  deriving DecidableEq, Inhabited

/-- The `HSVStats` dataclass of `hsv_analyzer.py`: raw relative values,
decayed values, first and second derivatives, one per channel. -/
structure HSVStats where
  h_m : ℚ := 0
  s_m : ℚ := 0
  v_m : ℚ := 0
  h_decay : ℚ := 0
  s_decay : ℚ := 0
  v_decay : ℚ := 0
  dh : ℚ := 0
  ds : ℚ := 0
  dv : ℚ := 0
  ddh : ℚ := 0
  dds : ℚ := 0
  ddv : ℚ := 0
  deriving DecidableEq, Inhabited

/-- The `ThresholdProfile` dataclass of `profile_manager.py`:
a name plus nine optional thresholds (`None` = "not checked"). -/
structure ThresholdProfile where
  name : String
  h_decay : Option ℚ := none
  s_decay : Option ℚ := none
  v_decay : Option ℚ := none
  dh : Option ℚ := none
  ds : Option ℚ := none
  dv : Option ℚ := none
  ddh : Option ℚ := none
  dds : Option ℚ := none
  ddv : Option ℚ := none
  deriving DecidableEq, Inhabited

/-- One HSV pixel of a converted frame. -/
structure Pixel where
  h : ℚ
  s : ℚ
  v : ℚ
  deriving DecidableEq, Inhabited

/-- `ImageProcessor.get_hsv_stats`: per-channel means, restricted to the
pixels whose mask entry is positive when a mask is given.  With an empty
selection the Python code computes `np.mean` of an empty array, which
yields NaN (with only a runtime warning); here the same division by zero
produces the junk value `x / 0 = 0` of ℚ.  In both settings no error is
signalled: the function is total. -/
def get_hsv_stats (pixels : List Pixel) (mask : Option (List ℕ)) : ColorStats :=
  match mask with
  | some m =>
      let sel := (pixels.zip m).filterMap fun pm => if pm.2 > 0 then some pm.1 else none
      { h_m := (sel.map Pixel.h).sum / sel.length
        s_m := (sel.map Pixel.s).sum / sel.length
        v_m := (sel.map Pixel.v).sum / sel.length }
  | none =>
      { h_m := (pixels.map Pixel.h).sum / pixels.length
        s_m := (pixels.map Pixel.s).sum / pixels.length
        v_m := (pixels.map Pixel.v).sum / pixels.length }

/-- The analyzer state of `HSVAnalyzer.__init__` (the fields the signal
path reads or writes; the tracker's mask/ellipse state lives in
`TrackerState` below, and logging is omitted). -/
structure AnalyzerState where
  hsv_history : List HSVStats
  timestamps : List ℕ
  ref_stats : Option ColorStats
  is_paused : Bool
  decay_alpha : ℚ
  derivative_smoothing : Bool
  smoothing_window_size : ℕ
  current_profile : Option ThresholdProfile
  deriving DecidableEq, Inhabited

/-- The fresh analyzer state set up by `HSVAnalyzer.__init__`. -/
def initialState : AnalyzerState :=
  { hsv_history := []
    timestamps := []
    ref_stats := none
    is_paused := false
    decay_alpha := 1/20
    derivative_smoothing := false
    smoothing_window_size := 5
    current_profile := none }

/-- The `threshold_checks` pair list built by `HSVAnalyzer.check_thresholds`:
the nine (threshold, value) pairs, in source order. -/
def thresholdChecks (p : ThresholdProfile) (stats : HSVStats) : List (Option ℚ × ℚ) :=
  [(p.h_decay, stats.h_decay), (p.s_decay, stats.s_decay), (p.v_decay, stats.v_decay),
   (p.dh, stats.dh), (p.ds, stats.ds), (p.dv, stats.dv),
   (p.ddh, stats.ddh), (p.dds, stats.dds), (p.ddv, stats.ddv)]

/-- The `active_conditions` list built by `check_thresholds`: one boolean
per non-`None` threshold, `value >= threshold` for a nonnegative
threshold and `value <= threshold` for a negative one. -/
def activeConditions (p : ThresholdProfile) (stats : HSVStats) : List Bool :=
  (thresholdChecks p stats).filterMap fun tv =>
    tv.1.map fun threshold =>
      if threshold ≥ 0 then decide (tv.2 ≥ threshold) else decide (tv.2 ≤ threshold)

/-- `HSVAnalyzer.check_thresholds`: with no active profile return `False`;
with zero configured thresholds return `False`; otherwise the conjunction
of all configured conditions. -/
def check_thresholds (st : AnalyzerState) (stats : HSVStats) : Bool :=
  match st.current_profile with
  | none => false
  | some p =>
      if (activeConditions p stats).isEmpty then false
      else (activeConditions p stats).all id

/-- `HSVAnalyzer.set_reference`, restricted to the signal path: store the
stats computed from the reference frame as the baseline and clear the
history.  `clear_history` clears `hsv_history` only — the `timestamps`
list is left untouched by the Python code, and so here. -/
def set_reference (st : AnalyzerState) (stats : ColorStats) : AnalyzerState :=
  { st with ref_stats := some stats, hsv_history := [] }

/-- The decay update of `HSVAnalyzer.update`, lines 151–153:
`alpha * rel + (1-alpha) * (history[-1].decay if history else rel)`. -/
def decayNext (alpha rel : ℚ) (prevDecay : Option ℚ) : ℚ :=
  alpha * rel + (1 - alpha) * (prevDecay.getD rel)

/-- The `relative_stats` sample built by the body of `HSVAnalyzer.update`
(lines 150–180): relative values against the (possibly just-adopted)
reference, decay values, and raw first/second derivatives, where the
second derivative is `dh - prev.dh` only when `prev.dh != 0.0` and `0.0`
otherwise. -/
def nextSample (st : AnalyzerState) (stats : ColorStats) : HSVStats :=
  let ref := st.ref_stats.getD stats
  let relH := stats.h_m - ref.h_m
  let relS := stats.s_m - ref.s_m
  let relV := stats.v_m - ref.v_m
  let last := st.hsv_history.getLast?
  let h_decay := decayNext st.decay_alpha relH (last.map HSVStats.h_decay)
  let s_decay := decayNext st.decay_alpha relS (last.map HSVStats.s_decay)
  let v_decay := decayNext st.decay_alpha relV (last.map HSVStats.v_decay)
  match last with
  | some prev =>
      let dh := h_decay - prev.h_decay
      let ds := s_decay - prev.s_decay
      let dv := v_decay - prev.v_decay
      { h_m := relH, s_m := relS, v_m := relV
        h_decay := h_decay, s_decay := s_decay, v_decay := v_decay
        dh := dh, ds := ds, dv := dv
        ddh := if prev.dh ≠ 0 then dh - prev.dh else 0
        dds := if prev.ds ≠ 0 then ds - prev.ds else 0
        ddv := if prev.dv ≠ 0 then dv - prev.dv else 0 }
  | none =>
      { h_m := relH, s_m := relS, v_m := relV
        h_decay := h_decay, s_decay := s_decay, v_decay := v_decay
        dh := 0, ds := 0, dv := 0, ddh := 0, dds := 0, ddv := 0 }

/-- `HSVAnalyzer.update`: no-op when paused; otherwise adopt the incoming
stats as reference when none is set, build the `relative_stats` sample
and append it together with a timestamp.  The stats argument is the
output of `get_hsv_stats` on the current frame and mask; the timestamp is
abstracted to a number. -/
def update (st : AnalyzerState) (stats : ColorStats) (t : ℕ) : AnalyzerState :=
  if st.is_paused then st
  else
    { st with ref_stats := some (st.ref_stats.getD stats)
              hsv_history := st.hsv_history ++ [nextSample st stats]
              timestamps := st.timestamps ++ [t] }

/-- A sequence of `update` calls, one per (stats, timestamp) pair. -/
def runUpdates (st : AnalyzerState) (inputs : List (ColorStats × ℕ)) : AnalyzerState :=
  inputs.foldl (fun s p => update s p.1 p.2) st

/-- The three color channels H, S, V, as projections of a stored sample:
its decayed value. -/
def chDecay : Fin 3 → HSVStats → ℚ
  | 0 => HSVStats.h_decay
  | 1 => HSVStats.s_decay
  | 2 => HSVStats.v_decay

/-- Channel projection of a stored sample: its raw relative value. -/
def chRel : Fin 3 → HSVStats → ℚ
  | 0 => HSVStats.h_m
  | 1 => HSVStats.s_m
  | 2 => HSVStats.v_m

/-- Channel projection of a `ColorStats` record. -/
def chStat : Fin 3 → ColorStats → ℚ
  | 0 => ColorStats.h_m
  | 1 => ColorStats.s_m
  | 2 => ColorStats.v_m

/-- The decayed value of the most recent sample, per channel. -/
def lastDecay (ch : Fin 3) (st : AnalyzerState) : ℚ :=
  chDecay ch st.hsv_history.getLastI

/-- `n` further `update` calls with one fixed stats record (constant
relative input), all carrying the same timestamp. -/
def constRun (st : AnalyzerState) (c : ColorStats) (t : ℕ) (n : ℕ) : AnalyzerState :=
  runUpdates st (List.replicate n (c, t))

/-- The mathematical decay recursion `d₀, d_{k+1} = a·r + (1-a)·d_k`,
used to relate the analyzer's repeated constant-input updates to the
geometric closed form. -/
def decaySeq (a r d0 : ℚ) : ℕ → ℚ
  | 0 => d0
  | n + 1 => a * r + (1 - a) * decaySeq a r d0 n

/-- `HSVAnalyzer._apply_sliding_window_smoothing`: return the data
unchanged when it is shorter than the window; otherwise edge-pad by
`window_size // 2` on each side (`np.pad(..., mode='edge')`) and convolve
with the uniform kernel in `'valid'` mode, i.e. take the mean of every
length-`window_size` window of the padded list. -/
def applySlidingWindowSmoothing (data : List ℚ) (window_size : ℕ) : List ℚ :=
  if data.length < window_size then data
  else
    let padded := List.replicate (window_size / 2) data.headI ++ data ++
      List.replicate (window_size / 2) data.getLastI
    (List.range (padded.length + 1 - window_size)).map fun i =>
      ((padded.drop i).take window_size).sum / window_size

/-- `np.diff(xs, prepend=xs[0])`: consecutive differences against the
list with its first element duplicated in front; output length equals
input length and the first output entry is `0`. -/
def diffPrepend : List ℚ → List ℚ
  | [] => []
  | x :: xs => ((x :: xs).zip (x :: x :: xs)).map fun p => p.1 - p.2

/-- The dict returned by `HSVAnalyzer.get_history`. -/
structure History where
  timestamps : List ℕ
  h_means : List ℚ
  s_means : List ℚ
  v_means : List ℚ
  h_decay : List ℚ
  s_decay : List ℚ
  v_decay : List ℚ
  dH : List ℚ
  dS : List ℚ
  dV : List ℚ
  ddH : List ℚ
  ddS : List ℚ
  ddV : List ℚ
  deriving DecidableEq, Inhabited

/-- One branch of `get_history`'s derivative recomputation: diff with the
first value prepended when at least two elements are present, else a list
of zeros of the same length. -/
def diffOrZeros (xs : List ℚ) : List ℚ :=
  if xs.length ≥ 2 then diffPrepend xs else List.replicate xs.length 0

/-- One smoothing stage of `get_history`'s cascade: smooth when the list
is nonempty, else leave it as is. -/
def smoothStage (xs : List ℚ) (w : ℕ) : List ℚ :=
  if xs.length > 0 then applySlidingWindowSmoothing xs w else xs

/-- `HSVAnalyzer.get_history`: the raw per-channel series (timestamps are
copied as stored — they are never cleared by `clear_history`), with the
read-time smoothing cascade applied when `derivative_smoothing` is on and
the history is nonempty: smooth decay with window `W`, recompute the
first derivative by `diff`-with-prepend, smooth with `2W`, recompute the
second derivative, smooth with `4W`.  The side update of
`current_smoothed_stats` / `is_threshold_exceeded` is not modelled here;
the returned dict is embedded exactly. -/
def get_history (st : AnalyzerState) : History :=
  let base : History :=
    { timestamps := st.timestamps
      h_means := st.hsv_history.map HSVStats.h_m
      s_means := st.hsv_history.map HSVStats.s_m
      v_means := st.hsv_history.map HSVStats.v_m
      h_decay := st.hsv_history.map HSVStats.h_decay
      s_decay := st.hsv_history.map HSVStats.s_decay
      v_decay := st.hsv_history.map HSVStats.v_decay
      dH := st.hsv_history.map HSVStats.dh
      dS := st.hsv_history.map HSVStats.ds
      dV := st.hsv_history.map HSVStats.dv
      ddH := st.hsv_history.map HSVStats.ddh
      ddS := st.hsv_history.map HSVStats.dds
      ddV := st.hsv_history.map HSVStats.ddv }
  if st.derivative_smoothing ∧ st.hsv_history.length > 0 then
    let w := st.smoothing_window_size
    let smoothed_h_decay := applySlidingWindowSmoothing base.h_decay w
    let smoothed_s_decay := applySlidingWindowSmoothing base.s_decay w
    let smoothed_v_decay := applySlidingWindowSmoothing base.v_decay w
    let dH_smoothed := diffOrZeros smoothed_h_decay
    let dS_smoothed := diffOrZeros smoothed_s_decay
    let dV_smoothed := diffOrZeros smoothed_v_decay
    let smoothed_dH := smoothStage dH_smoothed (w * 2)
    let smoothed_dS := smoothStage dS_smoothed (w * 2)
    let smoothed_dV := smoothStage dV_smoothed (w * 2)
    let ddH_smoothed := diffOrZeros smoothed_dH
    let ddS_smoothed := diffOrZeros smoothed_dS
    let ddV_smoothed := diffOrZeros smoothed_dV
    let final_ddH := smoothStage ddH_smoothed (w * 4)
    let final_ddS := smoothStage ddS_smoothed (w * 4)
    let final_ddV := smoothStage ddV_smoothed (w * 4)
    { base with
        h_decay := smoothed_h_decay, s_decay := smoothed_s_decay, v_decay := smoothed_v_decay
        dH := smoothed_dH, dS := smoothed_dS, dV := smoothed_dV
        ddH := final_ddH, ddS := final_ddS, ddV := final_ddV }
  else base

/-- An analyzer state with derivative smoothing on, window size `1` and
two recorded samples, used to exercise the read-time smoothing cascade on
a concrete input. -/
def cascadeState : AnalyzerState :=
  { initialState with
      derivative_smoothing := true
      smoothing_window_size := 1
      hsv_history :=
        [{ h_m := 1, h_decay := 1 }, { h_m := 2, h_decay := 2 }]
      timestamps := [0, 1] }

/-! ## The region-of-interest tracker (`src/camera/processor.py`) -/

/-- An OpenCV ellipse `((x, y), (width, height), angle)`. -/
structure Ellipse where
  cx : ℚ
  cy : ℚ
  width : ℚ
  height : ℚ
  angle : ℚ
  deriving DecidableEq, Inhabited

/-- Python's float `%` with a positive modulus: `x - m * ⌊x / m⌋`, which
lands in `[0, m)`. -/
def qmod (x m : ℚ) : ℚ := x - m * ⌊x / m⌋

/-- `ImageProcessor.blend_ellipses`: with no previous ellipse return the
current one; otherwise correct the angle wraparound (when the angles
differ by more than 90, add 180 to the smaller one), average center, size
and angle with weight `alpha` on the previous ellipse, and reduce the
angle modulo 180. -/
def blend_ellipses (alpha : ℚ) (current : Ellipse) (prev : Option Ellipse) : Ellipse :=
  match prev with
  | none => current
  | some p =>
      let angles :=
        if |current.angle - p.angle| > 90 then
          if current.angle > p.angle then (current.angle, p.angle + 180)
          else (current.angle + 180, p.angle)
        else (current.angle, p.angle)
      { cx := alpha * p.cx + (1 - alpha) * current.cx
        cy := alpha * p.cy + (1 - alpha) * current.cy
        width := alpha * p.width + (1 - alpha) * current.width
        height := alpha * p.height + (1 - alpha) * current.height
        angle := qmod (alpha * angles.2 + (1 - alpha) * angles.1) 180 }

/-- The temporal-consistency factor of `ImageProcessor.mask_ellipse_contour`,
lines 132–143: initialised to `1.0`, and replaced by
`0.5 * (dist_weight + size_weight)` only when a previous ellipse exists.
`rsqrt` and `rexp` stand for `np.sqrt` and `np.exp`. -/
def temporalScore (rsqrt rexp : ℚ → ℚ) (w : ℚ) (e : Ellipse) (prev : Option Ellipse) : ℚ :=
  match prev with
  | none => 1
  | some p =>
      let prev_dist := rsqrt ((e.cx - p.cx) ^ 2 + (e.cy - p.cy) ^ 2)
      let dist_weight := rexp (-prev_dist / (1/5 * w))
      let size_ratio := e.width * e.height / (p.width * p.height)
      let size_weight := rexp (-|1 - size_ratio|)
      1/2 * (dist_weight + size_weight)

/-- The candidate-selection loop of `mask_ellipse_contour`: each surviving
contour contributes a pair (base_score, fitted ellipse); its final score
is `base_score * (1 + temporal_score)`, and the candidate with the
strictly greatest final score wins, starting from `best_score = 0` and
`best_ellipse = None`. -/
def scoreCandidates (rsqrt rexp : ℚ → ℚ) (w : ℚ) (prev : Option Ellipse)
    (cands : List (ℚ × Ellipse)) : Option Ellipse × ℚ :=
  cands.foldl
    (fun acc c =>
      let score := c.1 * (1 + temporalScore rsqrt rexp w c.2 prev)
      if score > acc.2 then (some c.2, score) else acc)
    (none, 0)

/-- Selection by base score alone (the specification-side reading of the
candidate loop for the no-prior-ellipse case): the candidate with the
strictly greatest base score wins, starting from score `0`. -/
def selectByBase (cands : List (ℚ × Ellipse)) : Option Ellipse × ℚ :=
  cands.foldl (fun acc c => if c.1 > acc.2 then (some c.2, c.1) else acc) (none, 0)

/-- The persistent state of `ImageProcessor`: the previously accepted
ellipse and mask, the blending weight and the inner-ellipse margin.  The
mask type is kept abstract (rasterization with `cv2.ellipse` is opaque). -/
structure TrackerState (Mask : Type) where
  prev_ellipse : Option Ellipse
  prev_mask : Option Mask
  alpha : ℚ := 3/5
  ellipse_margin : ℚ := 1/10

/-- The value returned by `mask_ellipse_contour` together with the
updated tracker state: `(mask, ellipse, inner_ellipse, score)`.  The
fallback branch returns the Python int `0` as the score, modelled as
`some 0`; total absence is four `None`s. -/
structure TrackResult (Mask : Type) where
  mask : Option Mask
  ellipse : Option Ellipse
  inner : Option Ellipse
  score : Option ℚ
  state : TrackerState Mask

/-- `ImageProcessor.mask_ellipse_contour` from the candidate loop on
(contour extraction and ellipse fitting are upstream of the scored
candidates): select the best candidate; on a miss fall back to the
previous mask/ellipse with score 0 when one exists, else return absence;
on a hit blend with the previous ellipse, shrink by the margin to the
inner ellipse, rasterize the mask and remember the new ellipse and mask. -/
def mask_ellipse_contour {Mask : Type} (rsqrt rexp : ℚ → ℚ) (rasterize : Ellipse → Mask)
    (w : ℚ) (st : TrackerState Mask) (cands : List (ℚ × Ellipse)) : TrackResult Mask :=
  let best := scoreCandidates rsqrt rexp w st.prev_ellipse cands
  match best.1 with
  | none =>
      match st.prev_ellipse with
      | some pe => ⟨st.prev_mask, some pe, some pe, some 0, st⟩
      | none => ⟨none, none, none, none, st⟩
  | some be =>
      let smoothed := blend_ellipses st.alpha be st.prev_ellipse
      let inner : Ellipse :=
        { smoothed with
            width := (1 - st.ellipse_margin) * smoothed.width
            height := (1 - st.ellipse_margin) * smoothed.height }
      let mask := rasterize inner
      ⟨some mask, some smoothed, some inner, some best.2,
        { st with prev_ellipse := some smoothed, prev_mask := some mask }⟩

/-! ## Helper lemmas -/

theorem getLastI_concat {α : Type} [Inhabited α] (l : List α) (a : α) :
    (l ++ [a]).getLastI = a := by
  simp [List.getLastI_eq_getLast?, List.getLast?_concat]

theorem update_of_not_paused (st : AnalyzerState) (stats : ColorStats) (t : ℕ)
    (hp : st.is_paused = false) :
    update st stats t =
      { st with ref_stats := some (st.ref_stats.getD stats)
                hsv_history := st.hsv_history ++ [nextSample st stats]
                timestamps := st.timestamps ++ [t] } := by
  simp [update, hp]

theorem nextSample_chRel (ch : Fin 3) (st : AnalyzerState) (stats : ColorStats) :
    chRel ch (nextSample st stats) =
      chStat ch stats - chStat ch (st.ref_stats.getD stats) := by
  fin_cases ch <;> cases h : st.hsv_history.getLast? <;>
    simp [nextSample, chRel, chStat, h]

theorem nextSample_chDecay (ch : Fin 3) (st : AnalyzerState) (stats : ColorStats) :
    chDecay ch (nextSample st stats) =
      decayNext st.decay_alpha (chStat ch stats - chStat ch (st.ref_stats.getD stats))
        (st.hsv_history.getLast?.map (chDecay ch)) := by
  fin_cases ch <;> cases h : st.hsv_history.getLast? <;>
    simp [nextSample, chDecay, chStat, h]

theorem decayNext_none (alpha rel : ℚ) : decayNext alpha rel none = rel := by
  simp [decayNext]; ring

theorem activeConditions_eq_nil_iff (p : ThresholdProfile) (stats : HSVStats) :
    activeConditions p stats = [] ↔ ∀ tv ∈ thresholdChecks p stats, tv.1 = none := by
  unfold activeConditions
  generalize thresholdChecks p stats = l
  induction l with
  | nil => simp
  | cons hd tl ih =>
      cases h : hd.1 <;> simp [List.filterMap_cons, h, ih]

theorem condBool_iff (τ v : ℚ) :
    ((if τ ≥ 0 then decide (v ≥ τ) else decide (v ≤ τ)) = true) ↔
      ((0 ≤ τ → τ ≤ v) ∧ (τ < 0 → v ≤ τ)) := by
  by_cases h0 : (0:ℚ) ≤ τ
  · have h1 : ¬ τ < 0 := not_lt.mpr h0
    simp [ge_iff_le, h0, h1]
  · have h1 : τ < 0 := not_le.mp h0
    simp [ge_iff_le, h0, h1]

theorem activeConditions_all_iff (p : ThresholdProfile) (stats : HSVStats) :
    (activeConditions p stats).all id = true ↔
      ∀ tv ∈ thresholdChecks p stats, ∀ τ, tv.1 = some τ →
        (0 ≤ τ → τ ≤ tv.2) ∧ (τ < 0 → tv.2 ≤ τ) := by
  rw [List.all_eq_true]
  unfold activeConditions
  constructor
  · intro h tv htv τ hτ
    have hmem : (if τ ≥ 0 then decide (tv.2 ≥ τ) else decide (tv.2 ≤ τ)) ∈
        (thresholdChecks p stats).filterMap fun tv =>
          tv.1.map fun threshold =>
            if threshold ≥ 0 then decide (tv.2 ≥ threshold) else decide (tv.2 ≤ threshold) :=
      List.mem_filterMap.mpr ⟨tv, htv, by rw [hτ]; rfl⟩
    exact (condBool_iff τ tv.2).mp (h _ hmem)
  · intro h b hb
    obtain ⟨tv, htv, heq⟩ := List.mem_filterMap.mp hb
    obtain ⟨τ, hτ, rfl⟩ := Option.map_eq_some'.mp heq
    exact (condBool_iff τ tv.2).mpr (h tv htv τ hτ)

/-! ## Claim theorems -/

/-- C2: the threshold check is a pure conjunction over the configured
bounds: with no active profile it returns no-alarm (`false`); with an
active profile it is `false` when no threshold is configured, and
otherwise it is `true` exactly when every non-null threshold's condition
holds — `value ≥ threshold` for a nonnegative threshold and
`value ≤ threshold` for a negative one. -/
theorem threshold_check_conjunction (st : AnalyzerState) (stats : HSVStats) :
    (st.current_profile = none → check_thresholds st stats = false) ∧
    (∀ p, st.current_profile = some p →
      ((∀ tv ∈ thresholdChecks p stats, tv.1 = none) → check_thresholds st stats = false) ∧
      (check_thresholds st stats = true ↔
        (∃ tv ∈ thresholdChecks p stats, tv.1 ≠ none) ∧
        ∀ tv ∈ thresholdChecks p stats, ∀ τ, tv.1 = some τ →
          (0 ≤ τ → τ ≤ tv.2) ∧ (τ < 0 → tv.2 ≤ τ))) := by
  constructor
  · intro h
    simp [check_thresholds, h]
  · intro p hp
    constructor
    · intro hnone
      have : activeConditions p stats = [] := (activeConditions_eq_nil_iff p stats).mpr hnone
      simp [check_thresholds, hp, this]
    · by_cases hemp : (activeConditions p stats).isEmpty
      · have h1 : activeConditions p stats = [] := List.isEmpty_iff.mp hemp
        have h2 := (activeConditions_eq_nil_iff p stats).mp h1
        simp only [check_thresholds, hp, h1, List.isEmpty_nil, if_true]
        constructor
        · intro h; exact absurd h (by simp)
        · rintro ⟨⟨tv, htv, hne⟩, _⟩
          exact absurd (h2 tv htv) hne
      · have h1 : activeConditions p stats ≠ [] := fun h => hemp (by simp [h])
        have h2 : ¬ ∀ tv ∈ thresholdChecks p stats, tv.1 = none :=
          fun h => h1 ((activeConditions_eq_nil_iff p stats).mpr h)
        push_neg at h2
        obtain ⟨tv, htv, hne⟩ := h2
        have hemp' : (activeConditions p stats).isEmpty = false :=
          Bool.eq_false_iff.mpr hemp
        simp only [check_thresholds, hp, hemp', Bool.false_eq_true, if_false]
        rw [activeConditions_all_iff]
        constructor
        · intro h
          exact ⟨⟨tv, htv, hne⟩, h⟩
        · rintro ⟨_, h⟩
          exact h

/-- C2 witness: the theorem applied at a concrete profile with one
configured positive and one configured negative threshold, both
satisfied. -/
theorem threshold_check_conjunction_witness :
    (let p : ThresholdProfile := { name := "w", h_decay := some 5, dh := some (-2) }
     let st : AnalyzerState := { initialState with current_profile := some p }
     let stats : HSVStats := { h_decay := 6, dh := -3 }
     (st.current_profile = none → check_thresholds st stats = false) ∧
     (∀ q, st.current_profile = some q →
       ((∀ tv ∈ thresholdChecks q stats, tv.1 = none) → check_thresholds st stats = false) ∧
       (check_thresholds st stats = true ↔
         (∃ tv ∈ thresholdChecks q stats, tv.1 ≠ none) ∧
         ∀ tv ∈ thresholdChecks q stats, ∀ τ, tv.1 = some τ →
           (0 ≤ τ → τ ≤ tv.2) ∧ (τ < 0 → tv.2 ≤ τ)))) :=
  threshold_check_conjunction _ _

/-- C3: for every unpaused update, the appended sample's raw second
derivative per channel equals the difference of the current and previous
first derivatives exactly when the previous first derivative is nonzero,
and is forced to `0` otherwise; on the very first sample (empty history)
all first and second derivatives are `0`; the first derivative is the
backward difference of consecutive decay values. -/
theorem second_derivative_guard (st : AnalyzerState) (stats : ColorStats) (t : ℕ)
    (hp : st.is_paused = false) :
    (update st stats t).hsv_history = st.hsv_history ++ [nextSample st stats] ∧
    (st.hsv_history = [] →
      (nextSample st stats).dh = 0 ∧ (nextSample st stats).ds = 0 ∧
      (nextSample st stats).dv = 0 ∧ (nextSample st stats).ddh = 0 ∧
      (nextSample st stats).dds = 0 ∧ (nextSample st stats).ddv = 0) ∧
    (∀ prev, st.hsv_history.getLast? = some prev →
      (nextSample st stats).dh = (nextSample st stats).h_decay - prev.h_decay ∧
      (nextSample st stats).ds = (nextSample st stats).s_decay - prev.s_decay ∧
      (nextSample st stats).dv = (nextSample st stats).v_decay - prev.v_decay ∧
      (prev.dh ≠ 0 → (nextSample st stats).ddh = (nextSample st stats).dh - prev.dh) ∧
      (prev.dh = 0 → (nextSample st stats).ddh = 0) ∧
      (prev.ds ≠ 0 → (nextSample st stats).dds = (nextSample st stats).ds - prev.ds) ∧
      (prev.ds = 0 → (nextSample st stats).dds = 0) ∧
      (prev.dv ≠ 0 → (nextSample st stats).ddv = (nextSample st stats).dv - prev.dv) ∧
      (prev.dv = 0 → (nextSample st stats).ddv = 0)) := by
  refine ⟨by simp [update, hp], ?_, ?_⟩
  · intro h
    simp [nextSample, h]
  · intro prev h
    simp only [nextSample, h]
    refine ⟨?_, ?_, ?_, ?_, ?_, ?_, ?_, ?_, ?_⟩ <;>
      first
        | trivial
        | (intro hcond; simp [hcond])

/-- C3 witness: the theorem applied at a state holding one earlier sample
with nonzero first derivatives. -/
theorem second_derivative_guard_witness :
    (let st : AnalyzerState :=
       { initialState with hsv_history := [{ h_decay := 2, dh := 1, ds := 1, dv := 1 }] }
     let stats : ColorStats := ⟨3, 4, 5⟩
     (update st stats 1).hsv_history = st.hsv_history ++ [nextSample st stats] ∧
     (st.hsv_history = [] →
       (nextSample st stats).dh = 0 ∧ (nextSample st stats).ds = 0 ∧
       (nextSample st stats).dv = 0 ∧ (nextSample st stats).ddh = 0 ∧
       (nextSample st stats).dds = 0 ∧ (nextSample st stats).ddv = 0) ∧
     (∀ prev, st.hsv_history.getLast? = some prev →
       (nextSample st stats).dh = (nextSample st stats).h_decay - prev.h_decay ∧
       (nextSample st stats).ds = (nextSample st stats).s_decay - prev.s_decay ∧
       (nextSample st stats).dv = (nextSample st stats).v_decay - prev.v_decay ∧
       (prev.dh ≠ 0 → (nextSample st stats).ddh = (nextSample st stats).dh - prev.dh) ∧
       (prev.dh = 0 → (nextSample st stats).ddh = 0) ∧
       (prev.ds ≠ 0 → (nextSample st stats).dds = (nextSample st stats).ds - prev.ds) ∧
       (prev.ds = 0 → (nextSample st stats).dds = 0) ∧
       (prev.dv ≠ 0 → (nextSample st stats).ddv = (nextSample st stats).dv - prev.dv) ∧
       (prev.dv = 0 → (nextSample st stats).ddv = 0))) :=
  second_derivative_guard _ _ 1 rfl

/-- C10: when `update` runs with no reference ever set and an empty
history, the analyzer adopts the incoming stats as the reference
baseline, and the single appended sample is all zeros: zero raw relative
values, zero decay values, and zero first and second derivatives. -/
theorem first_update_adopts_reference (st : AnalyzerState) (c : ColorStats) (t : ℕ)
    (h1 : st.ref_stats = none) (h2 : st.is_paused = false) (h3 : st.hsv_history = []) :
    (update st c t).ref_stats = some c ∧
    (update st c t).hsv_history = [⟨0, 0, 0, 0, 0, 0, 0, 0, 0, 0, 0, 0⟩] := by
  refine ⟨by simp [update, h1, h2], ?_⟩
  simp [update, h1, h2, h3, nextSample, decayNext]

/-- C10 witness: the theorem applied to the freshly initialised analyzer. -/
theorem first_update_adopts_reference_witness :
    (update initialState ⟨3, 4, 5⟩ 0).ref_stats = some ⟨3, 4, 5⟩ ∧
    (update initialState ⟨3, 4, 5⟩ 0).hsv_history = [⟨0, 0, 0, 0, 0, 0, 0, 0, 0, 0, 0, 0⟩] :=
  first_update_adopts_reference initialState ⟨3, 4, 5⟩ 0 rfl rfl rfl

/-- C6: when no candidate survives scoring (the selection loop ends with
`best_ellipse = None`), the tracker returns the previous mask and
previous ellipse unchanged with score `0` when a previous ellipse exists,
and four `None`s when none exists; in both cases the stored tracking
state is left unchanged, and no error is possible (the function is
total). -/
theorem tracker_miss_fallback {Mask : Type} (rsqrt rexp : ℚ → ℚ) (rasterize : Ellipse → Mask)
    (w : ℚ) (st : TrackerState Mask) (cands : List (ℚ × Ellipse))
    (hmiss : (scoreCandidates rsqrt rexp w st.prev_ellipse cands).1 = none) :
    (∀ pe, st.prev_ellipse = some pe →
      mask_ellipse_contour rsqrt rexp rasterize w st cands =
        ⟨st.prev_mask, some pe, some pe, some 0, st⟩) ∧
    (st.prev_ellipse = none →
      mask_ellipse_contour rsqrt rexp rasterize w st cands =
        ⟨none, none, none, none, st⟩) := by
  constructor
  · intro pe hpe
    rw [hpe] at hmiss
    simp [mask_ellipse_contour, hpe, hmiss]
  · intro hpe
    rw [hpe] at hmiss
    simp [mask_ellipse_contour, hpe, hmiss]

/-- C6 witness: the theorem applied with an empty candidate list and a
concrete previous ellipse. -/
theorem tracker_miss_fallback_witness :
    (let st : TrackerState ℕ := ⟨some ⟨0, 0, 2, 2, 0⟩, some 7, 3/5, 1/10⟩
     (∀ pe, st.prev_ellipse = some pe →
       mask_ellipse_contour id id (fun _ => 0) 100 st [] =
         ⟨st.prev_mask, some pe, some pe, some 0, st⟩) ∧
     (st.prev_ellipse = none →
       mask_ellipse_contour id id (fun _ => 0) 100 st [] =
         ⟨none, none, none, none, st⟩)) :=
  tracker_miss_fallback id id (fun _ => 0) 100 _ [] rfl

/-- C4 counterexample: evaluated with no prior ellipse, the code
initialises `temporal_score = 1.0` (it is never replaced by `0`), so the
candidate with base score `1` receives final score
`1 * (1 + 1) = 2 ≠ 1 = base_score`, contradicting the claim that
`final_score = base_score` when no prior ellipse exists. -/
theorem no_prior_score_is_not_base :
    temporalScore id id 100 ⟨0, 0, 1, 1, 0⟩ none = 1 ∧
    scoreCandidates id id 100 none [(1, ⟨0, 0, 1, 1, 0⟩)] = (some ⟨0, 0, 1, 1, 0⟩, 2) ∧
    (2 : ℚ) ≠ 1 := by
  refine ⟨rfl, ?_, by norm_num⟩
  simp [scoreCandidates, temporalScore]
  norm_num

theorem scoreCandidates_none_foldl (rsqrt rexp : ℚ → ℚ) (w : ℚ) :
    ∀ (cands : List (ℚ × Ellipse)) (o : Option Ellipse) (b : ℚ),
      cands.foldl (fun acc c =>
          if c.1 * (1 + temporalScore rsqrt rexp w c.2 none) > acc.2
          then (some c.2, c.1 * (1 + temporalScore rsqrt rexp w c.2 none)) else acc) (o, 2 * b)
        = ((cands.foldl (fun acc c => if c.1 > acc.2 then (some c.2, c.1) else acc) (o, b)).1,
           2 * (cands.foldl (fun acc c => if c.1 > acc.2 then (some c.2, c.1) else acc) (o, b)).2) := by
  intro cands
  induction cands with
  | nil => intro o b; rfl
  | cons c tl ih =>
      intro o b
      simp only [List.foldl_cons, temporalScore]
      have hcond : (c.1 * (1 + 1) > (o, 2 * b).2) ↔ (c.1 > (o, b).2) := by
        simp only
        constructor <;> intro h <;> nlinarith
      by_cases hgt : c.1 > (o, b).2
      · rw [if_pos (hcond.mpr hgt), if_pos hgt]
        have h2 : c.1 * (1 + 1) = 2 * c.1 := by ring
        rw [h2]
        exact ih (some c.2) c.1
      · rw [if_neg (fun hh => hgt (hcond.mp hh)), if_neg hgt]
        exact ih o b

/-- C4 amended: every candidate's final score is
`base_score * (1 + temporal_score)` where `temporal_score` is
`0.5 * (dist_weight + size_weight)` when a previous accepted ellipse
exists, but `1.0` (not `0`) when none exists — so with no prior ellipse
the final score is `2 * base_score`, and selection coincides with
selection by base score alone with the winning score doubled. -/
theorem no_prior_temporal_bonus_doubles (rsqrt rexp : ℚ → ℚ) (w : ℚ)
    (cands : List (ℚ × Ellipse)) :
    (∀ e, temporalScore rsqrt rexp w e none = 1) ∧
    scoreCandidates rsqrt rexp w none cands =
      ((selectByBase cands).1, 2 * (selectByBase cands).2) := by
  refine ⟨fun e => rfl, ?_⟩
  have h := scoreCandidates_none_foldl rsqrt rexp w cands none 0
  rw [mul_zero] at h
  exact h

/-- Lower and upper bound of Python's float modulo with a positive
modulus. -/
theorem qmod_bounds (x m : ℚ) (hm : 0 < m) : 0 ≤ qmod x m ∧ qmod x m < m := by
  unfold qmod
  constructor
  · have h : (⌊x / m⌋ : ℚ) ≤ x / m := Int.floor_le (x / m)
    have h2 : (⌊x / m⌋ : ℚ) * m ≤ x / m * m :=
      mul_le_mul_of_nonneg_right h (le_of_lt hm)
    rw [div_mul_cancel₀ x (ne_of_gt hm)] at h2
    linarith
  · have h : x / m < ⌊x / m⌋ + 1 := Int.lt_floor_add_one (x / m)
    have h2 : x / m * m < ((⌊x / m⌋ : ℚ) + 1) * m :=
      mul_lt_mul_of_pos_right h hm
    rw [div_mul_cancel₀ x (ne_of_gt hm)] at h2
    nlinarith

/-- C9: when the two blended ellipses' angles differ by more than 90°,
`blend_ellipses` (with the default weight `alpha = 0.6` on the previous
ellipse) adds 180° to the smaller angle, takes the weighted average, and
reduces modulo 180 into `[0, 180)`; blending the angles 179° and 1°
yields 179.8° resp. 0.2°, within 1° of the 0°/180° seam and more than
89° away from 90°. -/
theorem angle_blend_wraparound (cur prev : Ellipse)
    (hdiff : |cur.angle - prev.angle| > 90) :
    ((blend_ellipses (3/5) cur (some prev)).angle =
      qmod ((3/5) * (prev.angle + if prev.angle < cur.angle then 180 else 0)
            + (2/5) * (cur.angle + if cur.angle < prev.angle then 180 else 0)) 180) ∧
    0 ≤ (blend_ellipses (3/5) cur (some prev)).angle ∧
    (blend_ellipses (3/5) cur (some prev)).angle < 180 ∧
    (blend_ellipses (3/5) ⟨0, 0, 1, 1, 1⟩ (some ⟨0, 0, 1, 1, 179⟩)).angle = 899/5 ∧
    (blend_ellipses (3/5) ⟨0, 0, 1, 1, 179⟩ (some ⟨0, 0, 1, 1, 1⟩)).angle = 1/5 ∧
    (180 - 899/5 : ℚ) ≤ 1 ∧ (1/5 : ℚ) ≤ 1 ∧
    |(899/5 : ℚ) - 90| ≥ 89 ∧ |(1/5 : ℚ) - 90| ≥ 89 := by
  have hstruct : (blend_ellipses (3/5) cur (some prev)).angle =
      qmod ((3/5) * (prev.angle + if prev.angle < cur.angle then 180 else 0)
            + (2/5) * (cur.angle + if cur.angle < prev.angle then 180 else 0)) 180 := by
    simp only [blend_ellipses, if_pos hdiff]
    rcases lt_trichotomy cur.angle prev.angle with hlt | heq | hgt
    · rw [if_neg (not_lt.mpr (le_of_lt hlt)), if_pos hlt, if_neg (not_lt.mpr (le_of_lt hlt))]
      congr 1
      ring
    · rw [heq] at hdiff
      simp at hdiff
      linarith
    · rw [if_pos hgt, if_pos hgt, if_neg (not_lt.mpr (le_of_lt hgt))]
      congr 1
      ring
  have hb := qmod_bounds ((3/5) * (prev.angle + if prev.angle < cur.angle then 180 else 0)
      + (2/5) * (cur.angle + if cur.angle < prev.angle then 180 else 0)) 180 (by norm_num)
  refine ⟨hstruct, ?_, ?_, ?_, ?_, by norm_num, by norm_num, by rw [abs_of_pos] <;> norm_num,
    by rw [abs_of_neg] <;> norm_num⟩
  · rw [hstruct]; exact hb.1
  · rw [hstruct]; exact hb.2
  · simp [blend_ellipses, qmod]
    norm_num
  · simp [blend_ellipses, qmod]
    norm_num

/-- C9 witness: the theorem applied at the 1°/179° pair. -/
theorem angle_blend_wraparound_witness :
    (let cur : Ellipse := ⟨0, 0, 1, 1, 1⟩
     let prev : Ellipse := ⟨0, 0, 1, 1, 179⟩
     ((blend_ellipses (3/5) cur (some prev)).angle =
       qmod ((3/5) * (prev.angle + if prev.angle < cur.angle then 180 else 0)
             + (2/5) * (cur.angle + if cur.angle < prev.angle then 180 else 0)) 180) ∧
     0 ≤ (blend_ellipses (3/5) cur (some prev)).angle ∧
     (blend_ellipses (3/5) cur (some prev)).angle < 180 ∧
     (blend_ellipses (3/5) ⟨0, 0, 1, 1, 1⟩ (some ⟨0, 0, 1, 1, 179⟩)).angle = 899/5 ∧
     (blend_ellipses (3/5) ⟨0, 0, 1, 1, 179⟩ (some ⟨0, 0, 1, 1, 1⟩)).angle = 1/5 ∧
     (180 - 899/5 : ℚ) ≤ 1 ∧ (1/5 : ℚ) ≤ 1 ∧
     |(899/5 : ℚ) - 90| ≥ 89 ∧ |(1/5 : ℚ) - 90| ≥ 89) :=
  angle_blend_wraparound ⟨0, 0, 1, 1, 1⟩ ⟨0, 0, 1, 1, 179⟩ (by norm_num)

/-- C7 counterexample: smoothing a length-2 series with window 2 (the
`2W` stage for `W = 1`) returns 3 elements, not 2 — the edge padding adds
`2·(w//2) = w` elements for an even window while the valid convolution
removes only `w − 1`; concretely, in the `get_history` cascade with
`W = 1` and two recorded samples the smoothed decay series has length 2
but the first-derivative series comes back with length 3. -/
theorem smoothing_length_counterexample :
    (applySlidingWindowSmoothing [0, 0] 2).length = 3 ∧ (3 : ℕ) ≠ 2 ∧
    (get_history cascadeState).h_decay.length = 2 ∧
    (get_history cascadeState).dH.length = 3 := by
  refine ⟨rfl, by norm_num, rfl, rfl⟩

/-- C7 amended: the centered edge-padded moving average preserves the
input length exactly when the window is odd; for an even window the
output is one element longer (whenever the smoothing is actually
applied, i.e. the input is at least as long as the window).  In the
`get_history` cascade, length preservation therefore holds at window `W`
for the decay series whenever `W` is odd, while the `2W` and `4W` stages
(always even) lengthen the series by one whenever they are applied. -/
theorem smoothing_length_parity (data : List ℚ) (w : ℕ) (hw : 0 < w)
    (happ : w ≤ data.length) :
    ((applySlidingWindowSmoothing data w).length = data.length + 1 - w % 2) ∧
    (w % 2 = 1 → (applySlidingWindowSmoothing data w).length = data.length) ∧
    (∀ st : AnalyzerState, st.smoothing_window_size % 2 = 1 →
      (get_history st).h_decay.length = st.hsv_history.length) := by
  have hmain : ∀ (l : List ℚ) (v : ℕ), 0 < v → v ≤ l.length →
      (applySlidingWindowSmoothing l v).length = l.length + 1 - v % 2 := by
    intro l v hv hlen
    rw [applySlidingWindowSmoothing, if_neg (not_lt.mpr hlen)]
    simp only [List.length_map, List.length_range, List.length_append, List.length_replicate]
    omega
  refine ⟨hmain data w hw happ, ?_, ?_⟩
  · intro hodd
    rw [hmain data w hw happ, hodd]
    omega
  · intro st hodd
    have hw' : 0 < st.smoothing_window_size := by omega
    by_cases hcond : st.derivative_smoothing = true ∧ st.hsv_history.length > 0
    · simp only [get_history, hcond, and_self, List.length_map, if_true]
      by_cases hlen : (st.hsv_history.map HSVStats.h_decay).length < st.smoothing_window_size
      · rw [applySlidingWindowSmoothing, if_pos hlen]
        simp
      · rw [hmain _ _ hw' (not_lt.mp hlen), hodd]
        simp
    · simp only [get_history]
      rw [if_neg (by simpa using hcond)]
      simp

/-- C7 amended witness: the theorem applied at a length-3 series with the
odd window 3. -/
theorem smoothing_length_parity_witness :
    ((applySlidingWindowSmoothing [1, 2, 3] 3).length = [1, 2, 3].length + 1 - 3 % 2) ∧
    (3 % 2 = 1 → (applySlidingWindowSmoothing [1, 2, 3] 3).length = [1, 2, 3].length) ∧
    (∀ st : AnalyzerState, st.smoothing_window_size % 2 = 1 →
      (get_history st).h_decay.length = st.hsv_history.length) :=
  smoothing_length_parity [1, 2, 3] 3 (by norm_num) (by norm_num)

/-- C8, evaluated at the failing input: after one `update` and a
subsequent `set_reference`, the history and hence every channel series
returned by `get_history` is empty and the new baseline is in place
(the next relative value subtracts it), but the timestamp list still
holds the earlier entry — `clear_history`, despite its docstring
"Clear all historical data", clears only `hsv_history`, never
`timestamps`. -/
theorem set_reference_leaves_timestamps :
    (let st2 := set_reference (update initialState ⟨1, 2, 3⟩ 0) ⟨5, 6, 7⟩
     st2.hsv_history = [] ∧
     st2.ref_stats = some ⟨5, 6, 7⟩ ∧
     (get_history st2).h_means = [] ∧ (get_history st2).s_means = [] ∧
     (get_history st2).v_means = [] ∧ (get_history st2).h_decay = [] ∧
     (get_history st2).s_decay = [] ∧ (get_history st2).v_decay = [] ∧
     (get_history st2).dH = [] ∧ (get_history st2).dS = [] ∧
     (get_history st2).dV = [] ∧ (get_history st2).ddH = [] ∧
     (get_history st2).ddS = [] ∧ (get_history st2).ddV = [] ∧
     (get_history st2).timestamps = [0] ∧ (get_history st2).timestamps ≠ [] ∧
     ((update st2 ⟨9, 9, 9⟩ 1).hsv_history.getLastI).h_m = 9 - 5 ∧
     ((9 : ℚ) - 5 = 4)) := by
  refine ⟨rfl, rfl, rfl, rfl, rfl, rfl, rfl, rfl, rfl, rfl, rfl, rfl, rfl, rfl, rfl,
    by decide, rfl, by norm_num⟩

/-- C5, evaluated at the failing input: on a frame whose mask selects
zero pixels, `get_hsv_stats` still returns a plain stats record — the
mean over the empty selection is NumPy's NaN (with only a runtime
warning), modelled here by ℚ's division-by-zero junk value `0`; no error
is raised and none is encodable in the return type — and `update` then
appends a sample computed from it, advancing the history by one instead
of refusing. -/
theorem empty_mask_no_error_and_appends :
    get_hsv_stats [⟨10, 20, 30⟩, ⟨40, 50, 60⟩] (some [0, 0]) = ⟨0, 0, 0⟩ ∧
    (update initialState
        (get_hsv_stats [⟨10, 20, 30⟩, ⟨40, 50, 60⟩] (some [0, 0])) 0).hsv_history.length
      = initialState.hsv_history.length + 1 := by
  constructor
  · simp [get_hsv_stats]
  · rfl

/-! ## Decay filter (C1) -/

theorem headI_append_of_ne_nil {α : Type} [Inhabited α] (l l' : List α) (h : l ≠ []) :
    (l ++ l').headI = l.headI := by
  cases l with
  | nil => exact absurd rfl h
  | cons a tl => rfl

theorem getLast?_eq_getLastI {α : Type} [Inhabited α] (l : List α) (h : l ≠ []) :
    l.getLast? = some l.getLastI := by
  cases hh : l.getLast? with
  | none => exact absurd (List.getLast?_eq_none_iff.mp hh) h
  | some x => rw [List.getLastI_eq_getLast?, hh]

theorem getLast?_eq_getD {α : Type} [Inhabited α] (l : List α) (h : l ≠ []) :
    l.getLast? = some (l.getD (l.length - 1) default) := by
  have hlt : l.length - 1 < l.length := by
    cases l with
    | nil => exact absurd rfl h
    | cons a tl => simp
  rw [List.getLast?_eq_getElem?, List.getElem?_eq_getElem hlt, List.getD_eq_getElem _ _ hlt]

theorem update_is_paused (st : AnalyzerState) (stats : ColorStats) (t : ℕ) :
    (update st stats t).is_paused = st.is_paused := by
  unfold update; split <;> rfl

theorem update_decay_alpha (st : AnalyzerState) (stats : ColorStats) (t : ℕ) :
    (update st stats t).decay_alpha = st.decay_alpha := by
  unfold update; split <;> rfl

theorem update_ref_of_some (st : AnalyzerState) (stats : ColorStats) (t : ℕ)
    (ρ : ColorStats) (hρ : st.ref_stats = some ρ) :
    (update st stats t).ref_stats = some ρ := by
  unfold update; split
  · exact hρ
  · simp [hρ]

theorem update_step_recursion (ch : Fin 3) (a : ℚ) (ρ : ColorStats)
    (st : AnalyzerState) (stats : ColorStats) (t : ℕ)
    (hp : st.is_paused = false) (hρ : st.ref_stats = some ρ) (ha : st.decay_alpha = a)
    (hhead : st.hsv_history ≠ [] →
      chDecay ch st.hsv_history.headI = chRel ch st.hsv_history.headI)
    (hrec : ∀ i, i + 1 < st.hsv_history.length →
      chDecay ch (st.hsv_history.getD (i + 1) default) =
        a * chRel ch (st.hsv_history.getD (i + 1) default)
        + (1 - a) * chDecay ch (st.hsv_history.getD i default)) :
    ((update st stats t).hsv_history ≠ [] →
      chDecay ch (update st stats t).hsv_history.headI =
        chRel ch (update st stats t).hsv_history.headI) ∧
    (∀ i, i + 1 < (update st stats t).hsv_history.length →
      chDecay ch ((update st stats t).hsv_history.getD (i + 1) default) =
        a * chRel ch ((update st stats t).hsv_history.getD (i + 1) default)
        + (1 - a) * chDecay ch ((update st stats t).hsv_history.getD i default)) := by
  rw [update_of_not_paused st stats t hp]
  simp only
  constructor
  · intro _
    by_cases hl : st.hsv_history = []
    · rw [hl]
      simp only [List.nil_append]
      have hd := nextSample_chDecay ch st stats
      rw [hl] at hd
      simp only [List.getLast?_nil] at hd
      rw [show ([nextSample st stats] : List HSVStats).headI = nextSample st stats from rfl,
        nextSample_chRel, hd]
      simp only [Option.map_none', decayNext, Option.getD_none]
      ring
    · rw [headI_append_of_ne_nil _ _ hl]
      exact hhead hl
  · intro i hi
    rw [List.length_append, List.length_cons, List.length_nil] at hi
    by_cases hlt : i + 1 < st.hsv_history.length
    · rw [List.getD_append _ _ _ _ hlt,
        List.getD_append _ _ _ _ (show i < st.hsv_history.length by omega)]
      exact hrec i hlt
    · have heq : i + 1 = st.hsv_history.length := by omega
      have hl : st.hsv_history ≠ [] := by
        intro h
        rw [h] at heq
        simp at heq
      rw [List.getD_append_right _ _ _ _ (by omega), List.getD_append _ _ _ _ (by omega)]
      have hs : ([nextSample st stats] : List HSVStats).getD (i + 1 - st.hsv_history.length)
          default = nextSample st stats := by
        rw [heq]
        simp
      rw [hs]
      have hd := nextSample_chDecay ch st stats
      rw [getLast?_eq_getD _ hl] at hd
      simp only [Option.map_some'] at hd
      rw [hd, nextSample_chRel, hρ]
      simp only [Option.getD_some, decayNext, ha]
      have hidx : st.hsv_history.length - 1 = i := by omega
      rw [hidx]

theorem runUpdates_recursion_aux (ch : Fin 3) (a : ℚ) (ρ : ColorStats)
    (inputs : List (ColorStats × ℕ)) :
    ∀ st : AnalyzerState, st.is_paused = false → st.ref_stats = some ρ →
      st.decay_alpha = a →
      (st.hsv_history ≠ [] →
        chDecay ch st.hsv_history.headI = chRel ch st.hsv_history.headI) →
      (∀ i, i + 1 < st.hsv_history.length →
        chDecay ch (st.hsv_history.getD (i + 1) default) =
          a * chRel ch (st.hsv_history.getD (i + 1) default)
          + (1 - a) * chDecay ch (st.hsv_history.getD i default)) →
      (((runUpdates st inputs).hsv_history ≠ [] →
        chDecay ch (runUpdates st inputs).hsv_history.headI =
          chRel ch (runUpdates st inputs).hsv_history.headI) ∧
      (∀ i, i + 1 < (runUpdates st inputs).hsv_history.length →
        chDecay ch ((runUpdates st inputs).hsv_history.getD (i + 1) default) =
          a * chRel ch ((runUpdates st inputs).hsv_history.getD (i + 1) default)
          + (1 - a) * chDecay ch ((runUpdates st inputs).hsv_history.getD i default))) := by
  induction inputs with
  | nil => exact fun st _ _ _ hhead hrec => ⟨hhead, hrec⟩
  | cons p tl ih =>
      intro st hp hρ ha hhead hrec
      have hstep := update_step_recursion ch a ρ st p.1 p.2 hp hρ ha hhead hrec
      exact ih (update st p.1 p.2) (by rw [update_is_paused, hp])
        (update_ref_of_some st p.1 p.2 ρ hρ) (by rw [update_decay_alpha, ha])
        hstep.1 hstep.2

theorem constRun_succ (st : AnalyzerState) (c : ColorStats) (t : ℕ) (n : ℕ) :
    constRun st c t (n + 1) = update (constRun st c t n) c t := by
  unfold constRun runUpdates
  rw [List.replicate_succ', List.foldl_append]
  rfl

theorem constRun_state (st : AnalyzerState) (c : ColorStats) (t : ℕ) (ρ : ColorStats)
    (hp : st.is_paused = false) (hρ : st.ref_stats = some ρ) :
    ∀ n, (constRun st c t n).is_paused = false ∧
      (constRun st c t n).ref_stats = some ρ ∧
      (constRun st c t n).decay_alpha = st.decay_alpha ∧
      (st.hsv_history ≠ [] → (constRun st c t n).hsv_history ≠ []) := by
  intro n
  induction n with
  | zero => exact ⟨hp, hρ, rfl, fun h => h⟩
  | succ n ih =>
      obtain ⟨h1, h2, h3, h4⟩ := ih
      rw [constRun_succ]
      refine ⟨by rw [update_is_paused, h1], update_ref_of_some _ _ _ ρ h2,
        by rw [update_decay_alpha, h3], fun hne => ?_⟩
      rw [update_of_not_paused _ _ _ h1]
      simp

theorem constRun_lastDecay_succ (ch : Fin 3) (st : AnalyzerState) (c : ColorStats)
    (t : ℕ) (ρ : ColorStats) (hp : st.is_paused = false) (hρ : st.ref_stats = some ρ)
    (hne : st.hsv_history ≠ []) (n : ℕ) :
    lastDecay ch (constRun st c t (n + 1)) =
      st.decay_alpha * (chStat ch c - chStat ch ρ)
      + (1 - st.decay_alpha) * lastDecay ch (constRun st c t n) := by
  obtain ⟨h1, h2, h3, h4⟩ := constRun_state st c t ρ hp hρ n
  rw [constRun_succ, update_of_not_paused _ _ _ h1]
  unfold lastDecay
  simp only
  rw [getLastI_concat]
  have hd := nextSample_chDecay ch (constRun st c t n) c
  rw [getLast?_eq_getLastI _ (h4 hne), h2] at hd
  simp only [Option.map_some', Option.getD_some] at hd
  rw [hd]
  simp only [decayNext, h3, Option.map_some', Option.getD_some]

theorem constRun_eq_decaySeq (ch : Fin 3) (st : AnalyzerState) (c : ColorStats)
    (t : ℕ) (ρ : ColorStats) (hp : st.is_paused = false) (hρ : st.ref_stats = some ρ)
    (hne : st.hsv_history ≠ []) :
    ∀ n, lastDecay ch (constRun st c t n) =
      decaySeq st.decay_alpha (chStat ch c - chStat ch ρ) (lastDecay ch st) n := by
  intro n
  induction n with
  | zero => rfl
  | succ n ih =>
      rw [constRun_lastDecay_succ ch st c t ρ hp hρ hne n, ih]
      rfl

theorem decaySeq_closed (a r d0 : ℚ) (n : ℕ) :
    decaySeq a r d0 n = r - (1 - a) ^ n * (r - d0) := by
  induction n with
  | zero => simp [decaySeq]
  | succ n ih =>
      rw [show decaySeq a r d0 (n + 1) = a * r + (1 - a) * decaySeq a r d0 n from rfl, ih]
      ring

theorem decaySeq_mono_le (a r d0 : ℚ) (ha0 : 0 ≤ a) (ha1 : a ≤ 1) (h : d0 ≤ r) (n : ℕ) :
    decaySeq a r d0 n ≤ decaySeq a r d0 (n + 1) ∧ decaySeq a r d0 n ≤ r := by
  rw [decaySeq_closed, decaySeq_closed]
  have h1 : (0:ℚ) ≤ (1 - a) ^ n := pow_nonneg (by linarith) n
  have h2 : (0:ℚ) ≤ r - d0 := sub_nonneg.mpr h
  constructor
  · have hstep : r - (1 - a) ^ (n + 1) * (r - d0) - (r - (1 - a) ^ n * (r - d0))
        = a * ((1 - a) ^ n * (r - d0)) := by ring
    nlinarith [mul_nonneg ha0 (mul_nonneg h1 h2)]
  · nlinarith [mul_nonneg h1 h2]

theorem decaySeq_tendsto (a r d0 : ℚ) (ha0 : 0 < a) (ha1 : a ≤ 1) :
    ∀ ε : ℚ, 0 < ε → ∃ N, ∀ n ≥ N, |r - decaySeq a r d0 n| < ε := by
  intro ε hε
  have h1a : (0:ℚ) ≤ 1 - a := by linarith
  have h1b : 1 - a < 1 := by linarith
  have hden : (0:ℚ) < |r - d0| + 1 := by positivity
  obtain ⟨N, hN⟩ := exists_pow_lt_of_lt_one (div_pos hε hden) h1b
  refine ⟨N, fun n hn => ?_⟩
  rw [decaySeq_closed]
  have habs : |r - (r - (1 - a) ^ n * (r - d0))| = (1 - a) ^ n * |r - d0| := by
    rw [show r - (r - (1 - a) ^ n * (r - d0)) = (1 - a) ^ n * (r - d0) by ring,
      abs_mul, abs_of_nonneg (pow_nonneg h1a n)]
  rw [habs]
  have hpow : (1 - a) ^ n ≤ (1 - a) ^ N := pow_le_pow_of_le_one h1a (le_of_lt h1b) hn
  calc (1 - a) ^ n * |r - d0| ≤ (1 - a) ^ N * (|r - d0| + 1) := by
        nlinarith [abs_nonneg (r - d0), pow_nonneg h1a n, pow_nonneg h1a N]
    _ < (ε / (|r - d0| + 1)) * (|r - d0| + 1) := mul_lt_mul_of_pos_right hN hden
    _ = ε := div_mul_cancel₀ ε (ne_of_gt hden)

/-- C1: the default decay coefficient is `alpha = 1/20 = 0.05`; for every
sequence of unpaused updates from an unchanged reference and for every
channel, the recorded decay series satisfies
`decay[0] = relative[0]` and
`decay[i+1] = alpha·relative[i+1] + (1−alpha)·decay[i]`; and under a
constant relative input `r` the last decay value after `n` further
updates equals `r − (1−alpha)^n · (r − decay[0])`, approaches `r`
monotonically from the starting side, and gets arbitrarily close to
`r`. -/
theorem decay_filter_recursion_and_convergence (st : AnalyzerState) (ρ : ColorStats)
    (hp : st.is_paused = false) (hρ : st.ref_stats = some ρ)
    (hα : st.decay_alpha = 1/20) :
    initialState.decay_alpha = 1/20 ∧
    (st.hsv_history = [] →
      ∀ (inputs : List (ColorStats × ℕ)) (ch : Fin 3),
        ((runUpdates st inputs).hsv_history ≠ [] →
          chDecay ch (runUpdates st inputs).hsv_history.headI =
            chRel ch (runUpdates st inputs).hsv_history.headI) ∧
        (∀ i, i + 1 < (runUpdates st inputs).hsv_history.length →
          chDecay ch ((runUpdates st inputs).hsv_history.getD (i + 1) default) =
            1/20 * chRel ch ((runUpdates st inputs).hsv_history.getD (i + 1) default)
            + (1 - 1/20) * chDecay ch ((runUpdates st inputs).hsv_history.getD i default))) ∧
    (st.hsv_history ≠ [] →
      ∀ (c : ColorStats) (t : ℕ) (ch : Fin 3),
        (∀ n, lastDecay ch (constRun st c t n) =
          (chStat ch c - chStat ch ρ)
          - (1 - 1/20) ^ n * ((chStat ch c - chStat ch ρ) - lastDecay ch st)) ∧
        (lastDecay ch st ≤ chStat ch c - chStat ch ρ →
          ∀ n, lastDecay ch (constRun st c t n) ≤ lastDecay ch (constRun st c t (n + 1)) ∧
            lastDecay ch (constRun st c t n) ≤ chStat ch c - chStat ch ρ) ∧
        (chStat ch c - chStat ch ρ ≤ lastDecay ch st →
          ∀ n, lastDecay ch (constRun st c t (n + 1)) ≤ lastDecay ch (constRun st c t n) ∧
            chStat ch c - chStat ch ρ ≤ lastDecay ch (constRun st c t n)) ∧
        (∀ ε : ℚ, 0 < ε → ∃ N, ∀ n ≥ N,
          |(chStat ch c - chStat ch ρ) - lastDecay ch (constRun st c t n)| < ε)) := by
  refine ⟨rfl, ?_, ?_⟩
  · intro hempty inputs ch
    refine runUpdates_recursion_aux ch (1/20) ρ inputs st hp hρ hα ?_ ?_
    · intro h
      exact absurd hempty h
    · intro i hi
      rw [hempty] at hi
      simp at hi
  · intro hne c t ch
    have hseq := constRun_eq_decaySeq ch st c t ρ hp hρ hne
    have ha0 : (0:ℚ) < 1/20 := by norm_num
    have ha1 : (1/20 : ℚ) ≤ 1 := by norm_num
    refine ⟨?_, ?_, ?_, ?_⟩
    · intro n
      rw [hseq n, hα, decaySeq_closed]
    · intro hle n
      have h1 := decaySeq_mono_le (1/20) (chStat ch c - chStat ch ρ) (lastDecay ch st)
        (le_of_lt ha0) ha1 hle n
      rw [hseq n, hseq (n + 1), hα]
      exact h1
    · intro hge n
      have hdual : ∀ m, decaySeq (1/20) (chStat ch c - chStat ch ρ) (lastDecay ch st) m =
          -(decaySeq (1/20) (-(chStat ch c - chStat ch ρ)) (-(lastDecay ch st)) m) := by
        intro m
        rw [decaySeq_closed, decaySeq_closed]
        ring
      have h1 := decaySeq_mono_le (1/20) (-(chStat ch c - chStat ch ρ)) (-(lastDecay ch st))
        (le_of_lt ha0) ha1 (by linarith) n
      rw [hseq n, hseq (n + 1), hα, hdual n, hdual (n + 1)]
      constructor <;> linarith [h1.1, h1.2]
    · intro ε hε
      obtain ⟨N, hN⟩ := decaySeq_tendsto (1/20) (chStat ch c - chStat ch ρ)
        (lastDecay ch st) ha0 ha1 ε hε
      refine ⟨N, fun n hn => ?_⟩
      rw [hseq n, hα]
      exact hN n hn

/-- C1 witness: the theorem applied at a state holding one sample with
decay value 1, reference `(0,0,0)` and the default `alpha`. -/
theorem decay_filter_recursion_and_convergence_witness :
    (let st : AnalyzerState :=
       { initialState with ref_stats := some ⟨0, 0, 0⟩,
                           hsv_history := [{ h_decay := 1 }] }
     let ρ : ColorStats := ⟨0, 0, 0⟩
     initialState.decay_alpha = 1/20 ∧
     (st.hsv_history = [] →
       ∀ (inputs : List (ColorStats × ℕ)) (ch : Fin 3),
         ((runUpdates st inputs).hsv_history ≠ [] →
           chDecay ch (runUpdates st inputs).hsv_history.headI =
             chRel ch (runUpdates st inputs).hsv_history.headI) ∧
         (∀ i, i + 1 < (runUpdates st inputs).hsv_history.length →
           chDecay ch ((runUpdates st inputs).hsv_history.getD (i + 1) default) =
             1/20 * chRel ch ((runUpdates st inputs).hsv_history.getD (i + 1) default)
             + (1 - 1/20) * chDecay ch ((runUpdates st inputs).hsv_history.getD i default))) ∧
     (st.hsv_history ≠ [] →
       ∀ (c : ColorStats) (t : ℕ) (ch : Fin 3),
         (∀ n, lastDecay ch (constRun st c t n) =
           (chStat ch c - chStat ch ρ)
           - (1 - 1/20) ^ n * ((chStat ch c - chStat ch ρ) - lastDecay ch st)) ∧
         (lastDecay ch st ≤ chStat ch c - chStat ch ρ →
           ∀ n, lastDecay ch (constRun st c t n) ≤ lastDecay ch (constRun st c t (n + 1)) ∧
             lastDecay ch (constRun st c t n) ≤ chStat ch c - chStat ch ρ) ∧
         (chStat ch c - chStat ch ρ ≤ lastDecay ch st →
           ∀ n, lastDecay ch (constRun st c t (n + 1)) ≤ lastDecay ch (constRun st c t n) ∧
             chStat ch c - chStat ch ρ ≤ lastDecay ch (constRun st c t n)) ∧
         (∀ ε : ℚ, 0 < ε → ∃ N, ∀ n ≥ N,
           |(chStat ch c - chStat ch ρ) - lastDecay ch (constRun st c t n)| < ε))) :=
  decay_filter_recursion_and_convergence _ ⟨0, 0, 0⟩ rfl rfl rfl

end DepositionDetection
